import Mathlib

/-!
Shallow embedding of the loading-state machine of `ngx-load-with`
(`src/projects/ngx-load-with/src/lib/ngx-load-with.directive.ts`).

The directive's reactive core is the `loadingState$` pipeline: three update
sources (`loadingStateOverride`, `getBeforeResultStateUpdates`,
`getAfterResultStateUpdates`) are merged and reduced by a shallow-merge `scan`
seeded with `{loading: false, loaded: false}`.  Requests flow through a
`debounce` gated by `timer(debounceTime).takeUntil(stop$)` and a `switchMap`
into `executeLoadFnAndHandleResult`, whose inner stream is cut by
`takeUntil(stop$)` where `stop$ = merge(loadCancelTrigger, loadingStateOverride)`.

We model this as a deterministic step function over an explicit machine state.
Inputs are events: the public API calls (`load`, `cancel`, `setData`,
`setError`), the elapse of the pending debounce timer, and the scripted
outcomes of the injected load function (an emission, an error, or completion).
Load-function executions are tagged with fresh ids (ghost instrumentation for
per-execution ordering statements); an event of an execution that is no longer
subscribed is a no-op on the machine, which models RxJS unsubscription: the
underlying async work may still resolve, but nothing is delivered.

Within one event the side effects are ordered as the subjects deliver them in
the source: subscribers are called in subscription order, and `loadingState$`
(subscribed in `ngOnInit`) subscribes `loadingStateOverride` before any
per-execution `stop$` subscription does, so an override patch reaches the scan
before the in-flight execution is unsubscribed.
-/

namespace NgxLoadWith

/-- Model of `LoadingState<T>` (directive lines 32-37).  `error : Option E` models
`Error | null | undefined` (`none` is null/undefined, hence falsy; an `Error`
object is always truthy); `data : Option D` models `T | undefined`. -/
structure LoadingState (D E : Type) where
  loading : Bool
  loaded : Bool
  error : Option E
  data : Option D
  deriving Repr, DecidableEq

/-- A `Partial<LoadingState<T>>` update object: a field is `none` when the key
is absent from the object.  For `error`, `some none` models an explicit
`error: null` entry. -/
structure StateUpdate (D E : Type) where
  loading : Option Bool
  loaded : Option Bool
  error : Option (Option E)
  data : Option D
  deriving Repr, DecidableEq

variable {D E : Type}

/-- The shallow merge `(state, update) => ({ ...state, ...update })` performed
by the `scan` in `loadingState$` (directive lines 209-212). -/
def applyUpdate (s : LoadingState D E) (u : StateUpdate D E) : LoadingState D E where
  loading := u.loading.getD s.loading
  loaded := u.loaded.getD s.loaded
  error := u.error.getD s.error
  data :=
    match u.data with
    | some v => some v
    | none => s.data

/-- The pre-result patch `{ loading: true, error: null }` produced by
`getBeforeResultStateUpdates` on every request (directive lines 391-395). -/
def loadingUpdate : StateUpdate D E :=
  { loading := some true, loaded := none, error := some none, data := none }

/-- The per-value patch `{ loading: false, loaded: true, data }` produced in
`executeLoadFnAndHandleResult` (directive line 414). -/
def loadedUpdate (v : D) : StateUpdate D E :=
  { loading := some false, loaded := some true, error := none, data := some v }

/-- The patch `{ loading: false, error }` produced by
`handleDataLoadingError` (directive line 424). -/
def errorUpdate (e : E) : StateUpdate D E :=
  { loading := some false, loaded := none, error := some (some e), data := none }

/-- The override patch `{ loaded: true, loading: false, data, error: null }`
sent by `setData` (directive lines 259-266). -/
def setDataUpdate (x : D) : StateUpdate D E :=
  { loading := some false, loaded := some true, error := some none, data := some x }

/-- The override patch `{ error }` sent by `setError` (directive lines
271-273).  Note the object carries only the `error` key. -/
def setErrorUpdate (e : E) : StateUpdate D E :=
  { loading := none, loaded := none, error := some (some e), data := none }

/-- The rendering phases of the directive (type `LoadingPhase`). -/
inductive LoadingPhase
  | loading
  | loaded
  | error
  deriving Repr, DecidableEq

/-- Model of `getLoadingPhase` (directive lines 296-304), with the `staleData` input as
a parameter.  `if (state.error)` tests JS truthiness, i.e. `isSome` here. -/
def getLoadingPhase (staleData : Bool) (s : LoadingState D E) : LoadingPhase :=
  if s.error.isSome then .error
  else if s.loaded && (!s.loading || staleData) then .loaded
  else .loading

/-- The side-effect notifications (the directive's `loadStart`, `loadSuccess`,
`loadError` and `loadFinish` outputs), tagged with the id of the execution
that produced them. -/
inductive Notif (D E : Type)
  | loadStart (execId : Nat)
  | loadSuccess (execId : Nat) (v : D)
  | loadError (execId : Nat) (e : E)
  | loadFinish (execId : Nat)
  deriving Repr, DecidableEq

/-- The events driving the machine: public API calls, the elapse of the
pending debounce timer, and the scripted behaviour of the load function's
stream for execution `i` (a value, an error, or completion). -/
inductive Event (D E : Type)
  | callLoad
  | callCancel
  | callSetData (x : D)
  | callSetError (e : E)
  | debounceElapse
  | execNext (i : Nat) (v : D)
  | execError (i : Nat) (e : E)
  | execComplete (i : Nat)
  deriving Repr, DecidableEq

/-- The machine state: the scan accumulator `state`, whether a request is
waiting out its debounce window, the id of the subscribed (live) load-function
execution if any, a fresh-id counter, and the recorded outputs: the ordered
notification log and the emitted state stream (`loadingState$` including its
`startWith` seed). -/
structure Machine (D E : Type) where
  state : LoadingState D E
  debouncing : Bool
  inFlight : Option Nat
  nextExecId : Nat
  notifs : List (Notif D E)
  emitted : List (LoadingState D E)
  deriving Repr, DecidableEq

/-- Merge an update into the scan and emit the resulting state
(`loadingState$` then delivers it to the observer). -/
def mergeUpdate (m : Machine D E) (u : StateUpdate D E) : Machine D E :=
  let s := applyUpdate m.state u
  { m with state := s, emitted := m.emitted ++ [s] }

/-- The effect of `stop$` firing (`stop$ = merge(loadCancelTrigger,
loadingStateOverride)`, directive lines 186-189): the pending debounce timer
(`timer(debounceTime).takeUntil(stop$)`) completes without emitting, so the
buffered request is dropped, and the in-flight execution's `takeUntil(stop$)`
unsubscribes it, running its `finalize` which emits `loadFinish`. -/
def applyStop (m : Machine D E) : Machine D E :=
  match m.inFlight with
  | some i =>
      { m with debouncing := false, inFlight := none,
               notifs := m.notifs ++ [Notif.loadFinish i] }
  | none => { m with debouncing := false }

/-- One step of the machine. -/
def step (m : Machine D E) (ev : Event D E) : Machine D E :=
  match ev with
  | .callCancel =>
      -- cancel(): this.loadCancelTrigger.next()
      applyStop m
  | .callLoad =>
      -- load(): this.cancel(); this.loadRequestTrigger.next().
      -- The request reaches getBeforeResultStateUpdates first (merge
      -- subscription order in loadingState$), merging the pre-result patch,
      -- then the debounce operator buffers it and starts a fresh timer.
      let m1 := mergeUpdate (applyStop m) loadingUpdate
      { m1 with debouncing := true }
  | .callSetData x =>
      -- setData: the override patch reaches the scan first, then stop$ fires.
      applyStop (mergeUpdate m (setDataUpdate x))
  | .callSetError e =>
      applyStop (mergeUpdate m (setErrorUpdate e))
  | .debounceElapse =>
      -- The debounce duration timer emits: debounce releases the request,
      -- the tap emits loadStart, and switchMap unsubscribes any previous
      -- inner stream (its finalize emitting loadFinish) before subscribing
      -- a fresh execution of loadFn.
      if m.debouncing then
        let i := m.nextExecId
        let m1 := { m with notifs := m.notifs ++ [Notif.loadStart i] }
        let m2 :=
          match m1.inFlight with
          | some j => { m1 with notifs := m1.notifs ++ [Notif.loadFinish j] }
          | none => m1
        { m2 with debouncing := false, inFlight := some i, nextExecId := i + 1 }
      else m
  | .execNext i v =>
      -- A value from the live execution: tap emits loadSuccess, map turns it
      -- into a LoadedUpdate merged into the scan; the stream stays live.
      if m.inFlight = some i then
        mergeUpdate { m with notifs := m.notifs ++ [Notif.loadSuccess i v] }
          (loadedUpdate v)
      else m
  | .execError i e =>
      -- catchError replaces the stream with of({loading: false, error}) whose
      -- tap emits loadError; the patch is merged, then the replacement
      -- completes and finalize emits loadFinish.
      if m.inFlight = some i then
        let m1 := mergeUpdate { m with notifs := m.notifs ++ [Notif.loadError i e] }
          (errorUpdate e)
        { m1 with inFlight := none, notifs := m1.notifs ++ [Notif.loadFinish i] }
      else m
  | .execComplete i =>
      -- The load function's stream completes: finalize emits loadFinish.
      if m.inFlight = some i then
        { m with inFlight := none, notifs := m.notifs ++ [Notif.loadFinish i] }
      else m

/-- Model of `initialLoadingState` (directive lines 191-194): `{loading: false,
loaded: false}`, no error key, no data key. -/
def initialLoadingState : LoadingState D E :=
  { loading := false, loaded := false, error := none, data := none }

/-- The machine as set up at subscription time: the `startWith` seeds the
emitted stream with the initial state. -/
def initMachine : Machine D E :=
  { state := initialLoadingState, debouncing := false, inFlight := none,
    nextExecId := 0, notifs := [], emitted := [initialLoadingState] }

/-- Run a trace of events from a machine state. -/
def runFrom (m : Machine D E) (tr : List (Event D E)) : Machine D E :=
  tr.foldl step m

/-- Run a trace of events from the initial machine. -/
def run (tr : List (Event D E)) : Machine D E :=
  runFrom initMachine tr

/-- Does notification `n` belong to execution `i`? -/
def notifOfExec (i : Nat) : Notif D E → Bool
  | .loadStart j => j = i
  | .loadSuccess j _ => j = i
  | .loadError j _ => j = i
  | .loadFinish j => j = i

/-- The notification log projected onto execution `i`. -/
def execTrace (i : Nat) (l : List (Notif D E)) : List (Notif D E) :=
  l.filter (notifOfExec i)

/-- Is `ev` an outcome event of execution `i`? -/
def eventOfExec (i : Nat) : Event D E → Bool
  | .execNext j _ => j = i
  | .execError j _ => j = i
  | .execComplete j => j = i
  | _ => false

/-- Execution `i` is stale in `m`: its id has been consumed and it is no
longer the subscribed execution. -/
def staleFor (m : Machine D E) (i : Nat) : Prop :=
  i < m.nextExecId ∧ m.inFlight ≠ some i

/-- Count of `loadStart` notifications: one per invocation of the load
function (the `tap` fires exactly when `switchMap` subscribes a fresh
execution). -/
def countStart (l : List (Notif D E)) : Nat :=
  l.countP fun n =>
    match n with
    | .loadStart _ => true
    | _ => false

/-- Is `n` the `loadFinish` notification of execution `i`? -/
def isFinishOf (i : Nat) : Notif D E → Bool
  | .loadFinish j => j = i
  | _ => false

/-- Count of `loadFinish` notifications of execution `i`. -/
def countFinish (i : Nat) (l : List (Notif D E)) : Nat :=
  l.countP (isFinishOf i)

section Projections

@[simp] theorem mergeUpdate_state (m : Machine D E) (u : StateUpdate D E) :
    (mergeUpdate m u).state = applyUpdate m.state u := rfl

@[simp] theorem mergeUpdate_debouncing (m : Machine D E) (u : StateUpdate D E) :
    (mergeUpdate m u).debouncing = m.debouncing := rfl

@[simp] theorem mergeUpdate_inFlight (m : Machine D E) (u : StateUpdate D E) :
    (mergeUpdate m u).inFlight = m.inFlight := rfl

@[simp] theorem mergeUpdate_nextExecId (m : Machine D E) (u : StateUpdate D E) :
    (mergeUpdate m u).nextExecId = m.nextExecId := rfl

@[simp] theorem mergeUpdate_notifs (m : Machine D E) (u : StateUpdate D E) :
    (mergeUpdate m u).notifs = m.notifs := rfl

@[simp] theorem mergeUpdate_emitted (m : Machine D E) (u : StateUpdate D E) :
    (mergeUpdate m u).emitted = m.emitted ++ [applyUpdate m.state u] := rfl

@[simp] theorem applyStop_state (m : Machine D E) :
    (applyStop m).state = m.state := by
  cases h : m.inFlight <;> simp [applyStop, h]

@[simp] theorem applyStop_debouncing (m : Machine D E) :
    (applyStop m).debouncing = false := by
  cases h : m.inFlight <;> simp [applyStop, h]

@[simp] theorem applyStop_inFlight (m : Machine D E) :
    (applyStop m).inFlight = none := by
  cases h : m.inFlight <;> simp [applyStop, h]

@[simp] theorem applyStop_nextExecId (m : Machine D E) :
    (applyStop m).nextExecId = m.nextExecId := by
  cases h : m.inFlight <;> simp [applyStop, h]

@[simp] theorem applyStop_emitted (m : Machine D E) :
    (applyStop m).emitted = m.emitted := by
  cases h : m.inFlight <;> simp [applyStop, h]

theorem applyStop_notifs_none (m : Machine D E) (h : m.inFlight = none) :
    (applyStop m).notifs = m.notifs := by
  simp [applyStop, h]

theorem applyStop_notifs_some (m : Machine D E) (i : Nat)
    (h : m.inFlight = some i) :
    (applyStop m).notifs = m.notifs ++ [Notif.loadFinish i] := by
  simp [applyStop, h]

end Projections

section StepEquations

theorem step_callCancel (m : Machine D E) :
    step m .callCancel = applyStop m := rfl

theorem step_callLoad (m : Machine D E) :
    step m .callLoad =
      { mergeUpdate (applyStop m) loadingUpdate with debouncing := true } := rfl

theorem step_callSetData (m : Machine D E) (x : D) :
    step m (.callSetData x) = applyStop (mergeUpdate m (setDataUpdate x)) := rfl

theorem step_callSetError (m : Machine D E) (e : E) :
    step m (.callSetError e) = applyStop (mergeUpdate m (setErrorUpdate e)) := rfl

theorem step_debounceElapse_idle (m : Machine D E) (h : m.debouncing = false) :
    step m .debounceElapse = m := by
  simp [step, h]

theorem step_debounceElapse_none (m : Machine D E) (h : m.debouncing = true)
    (h2 : m.inFlight = none) :
    step m .debounceElapse =
      { m with debouncing := false, inFlight := some m.nextExecId,
               nextExecId := m.nextExecId + 1,
               notifs := m.notifs ++ [Notif.loadStart m.nextExecId] } := by
  simp [step, h, h2]

theorem step_debounceElapse_live (m : Machine D E) (j : Nat)
    (h : m.debouncing = true) (h2 : m.inFlight = some j) :
    step m .debounceElapse =
      { m with debouncing := false, inFlight := some m.nextExecId,
               nextExecId := m.nextExecId + 1,
               notifs := m.notifs ++
                 [Notif.loadStart m.nextExecId, Notif.loadFinish j] } := by
  simp [step, h, h2]

theorem step_execNext_live (m : Machine D E) (i : Nat) (v : D)
    (h : m.inFlight = some i) :
    step m (.execNext i v) =
      mergeUpdate { m with notifs := m.notifs ++ [Notif.loadSuccess i v] }
        (loadedUpdate v) := by
  simp [step, h]

theorem step_execNext_stale (m : Machine D E) (i : Nat) (v : D)
    (h : m.inFlight ≠ some i) :
    step m (.execNext i v) = m := by
  simp [step, h]

theorem step_execError_live (m : Machine D E) (i : Nat) (e : E)
    (h : m.inFlight = some i) :
    step m (.execError i e) =
      { mergeUpdate { m with notifs := m.notifs ++ [Notif.loadError i e] }
          (errorUpdate e) with
        inFlight := none,
        notifs := m.notifs ++ [Notif.loadError i e, Notif.loadFinish i] } := by
  simp [step, h, mergeUpdate]

theorem step_execError_stale (m : Machine D E) (i : Nat) (e : E)
    (h : m.inFlight ≠ some i) :
    step m (.execError i e) = m := by
  simp [step, h]

theorem step_execComplete_live (m : Machine D E) (i : Nat)
    (h : m.inFlight = some i) :
    step m (.execComplete i) =
      { m with inFlight := none,
               notifs := m.notifs ++ [Notif.loadFinish i] } := by
  simp [step, h]

theorem step_execComplete_stale (m : Machine D E) (i : Nat)
    (h : m.inFlight ≠ some i) :
    step m (.execComplete i) = m := by
  simp [step, h]

theorem runFrom_nil (m : Machine D E) : runFrom m [] = m := rfl

theorem runFrom_cons (m : Machine D E) (ev : Event D E) (tr : List (Event D E)) :
    runFrom m (ev :: tr) = runFrom (step m ev) tr := rfl

theorem runFrom_append (m : Machine D E) (l1 l2 : List (Event D E)) :
    runFrom m (l1 ++ l2) = runFrom (runFrom m l1) l2 :=
  List.foldl_append step m l1 l2

end StepEquations

section Staleness

/-- Every live execution id has been drawn from the counter. -/
def liveLt (m : Machine D E) : Prop :=
  ∀ i : Nat, m.inFlight = some i → i < m.nextExecId

theorem liveLt_init : liveLt (initMachine : Machine D E) := by
  intro i h
  simp [initMachine] at h

theorem liveLt_step (m : Machine D E) (ev : Event D E) (h : liveLt m) :
    liveLt (step m ev) := by
  cases ev with
  | callLoad =>
      intro i hi
      rw [step_callLoad] at hi
      simp at hi
  | callCancel =>
      intro i hi
      rw [step_callCancel] at hi
      simp at hi
  | callSetData x =>
      intro i hi
      rw [step_callSetData] at hi
      simp at hi
  | callSetError e =>
      intro i hi
      rw [step_callSetError] at hi
      simp at hi
  | debounceElapse =>
      cases hd : m.debouncing with
      | false => rw [step_debounceElapse_idle m hd]; exact h
      | true =>
          cases hf : m.inFlight with
          | none =>
              intro i hi
              rw [step_debounceElapse_none m hd hf] at hi ⊢
              simp at hi ⊢
              omega
          | some j =>
              intro i hi
              rw [step_debounceElapse_live m j hd hf] at hi ⊢
              simp at hi ⊢
              omega
  | execNext i v =>
      by_cases hf : m.inFlight = some i
      · rw [step_execNext_live m i v hf]
        intro j hj
        simp at hj
        exact h j hj
      · rw [step_execNext_stale m i v hf]; exact h
  | execError i e =>
      by_cases hf : m.inFlight = some i
      · rw [step_execError_live m i e hf]
        intro j hj
        simp at hj
      · rw [step_execError_stale m i e hf]; exact h
  | execComplete i =>
      by_cases hf : m.inFlight = some i
      · rw [step_execComplete_live m i hf]
        intro j hj
        simp at hj
      · rw [step_execComplete_stale m i hf]; exact h

theorem liveLt_runFrom (m : Machine D E) (tr : List (Event D E))
    (h : liveLt m) : liveLt (runFrom m tr) := by
  induction tr generalizing m with
  | nil => exact h
  | cons ev rest ih =>
      rw [runFrom_cons]
      exact ih (step m ev) (liveLt_step m ev h)

theorem liveLt_run (tr : List (Event D E)) : liveLt (run tr) :=
  liveLt_runFrom _ _ liveLt_init

/-- The id counter never decreases. -/
theorem nextExecId_step_le (m : Machine D E) (ev : Event D E) :
    m.nextExecId ≤ (step m ev).nextExecId := by
  cases ev with
  | callLoad => rw [step_callLoad]; simp
  | callCancel => rw [step_callCancel]; simp
  | callSetData x => rw [step_callSetData]; simp
  | callSetError e => rw [step_callSetError]; simp
  | debounceElapse =>
      cases hd : m.debouncing with
      | false => rw [step_debounceElapse_idle m hd]
      | true =>
          cases hf : m.inFlight with
          | none => rw [step_debounceElapse_none m hd hf]; simp
          | some j => rw [step_debounceElapse_live m j hd hf]; simp
  | execNext i v =>
      by_cases hf : m.inFlight = some i
      · rw [step_execNext_live m i v hf]; simp
      · rw [step_execNext_stale m i v hf]
  | execError i e =>
      by_cases hf : m.inFlight = some i
      · rw [step_execError_live m i e hf]; simp
      · rw [step_execError_stale m i e hf]
  | execComplete i =>
      by_cases hf : m.inFlight = some i
      · rw [step_execComplete_live m i hf]
      · rw [step_execComplete_stale m i hf]

/-- Staleness is preserved by every step: a superseded (or otherwise ended)
execution never becomes the live one again, because live ids are always drawn
fresh from the counter. -/
theorem staleFor_step (m : Machine D E) (ev : Event D E) (i : Nat)
    (h : staleFor m i) : staleFor (step m ev) i := by
  obtain ⟨hlt, hne⟩ := h
  have hlt2 : i < (step m ev).nextExecId :=
    Nat.lt_of_lt_of_le hlt (nextExecId_step_le m ev)
  refine ⟨hlt2, ?_⟩
  cases ev with
  | callLoad => rw [step_callLoad]; simp
  | callCancel => rw [step_callCancel]; simp
  | callSetData x => rw [step_callSetData]; simp
  | callSetError e => rw [step_callSetError]; simp
  | debounceElapse =>
      cases hd : m.debouncing with
      | false => rw [step_debounceElapse_idle m hd]; exact hne
      | true =>
          cases hf : m.inFlight with
          | none =>
              rw [step_debounceElapse_none m hd hf]
              simp
              omega
          | some j =>
              rw [step_debounceElapse_live m j hd hf]
              simp
              omega
  | execNext j v =>
      by_cases hf : m.inFlight = some j
      · rw [step_execNext_live m j v hf]
        intro hcon
        apply hne
        simpa using hcon
      · rw [step_execNext_stale m j v hf]; exact hne
  | execError j e =>
      by_cases hf : m.inFlight = some j
      · rw [step_execError_live m j e hf]; simp
      · rw [step_execError_stale m j e hf]; exact hne
  | execComplete j =>
      by_cases hf : m.inFlight = some j
      · rw [step_execComplete_live m j hf]; simp
      · rw [step_execComplete_stale m j hf]; exact hne

theorem staleFor_runFrom (m : Machine D E) (tr : List (Event D E)) (i : Nat)
    (h : staleFor m i) : staleFor (runFrom m tr) i := by
  induction tr generalizing m with
  | nil => exact h
  | cons ev rest ih =>
      rw [runFrom_cons]
      exact ih (step m ev) (staleFor_step m ev i h)

/-- An outcome event of a stale execution is a complete no-op: nothing is
merged into the state stream and no notification fires (the stream was
unsubscribed). -/
theorem staleFor_noop (m : Machine D E) (ev : Event D E) (i : Nat)
    (h : staleFor m i) (hev : eventOfExec i ev = true) : step m ev = m := by
  obtain ⟨-, hne⟩ := h
  cases ev with
  | callLoad => simp [eventOfExec] at hev
  | callCancel => simp [eventOfExec] at hev
  | callSetData x => simp [eventOfExec] at hev
  | callSetError e => simp [eventOfExec] at hev
  | debounceElapse => simp [eventOfExec] at hev
  | execNext j v =>
      simp [eventOfExec] at hev
      exact step_execNext_stale m j v (by rw [hev]; exact hne)
  | execError j e =>
      simp [eventOfExec] at hev
      exact step_execError_stale m j e (by rw [hev]; exact hne)
  | execComplete j =>
      simp [eventOfExec] at hev
      exact step_execComplete_stale m j (by rw [hev]; exact hne)

/-- Deleting the outcome events of a stale execution from a trace does not
change the run at all: the stale execution contributes nothing, ever. -/
theorem staleFor_filter_runFrom (m : Machine D E) (tr : List (Event D E))
    (i : Nat) (h : staleFor m i) :
    runFrom m (tr.filter fun ev => !(eventOfExec i ev)) = runFrom m tr := by
  induction tr generalizing m with
  | nil => rfl
  | cons ev rest ih =>
      by_cases hev : eventOfExec i ev = true
      · have hnoop := staleFor_noop m ev i h hev
        rw [List.filter_cons]
        simp [hev]
        rw [runFrom_cons, hnoop]
        exact ih m h
      · have hev2 : eventOfExec i ev = false := by
          cases hb : eventOfExec i ev with
          | false => rfl
          | true => exact absurd hb hev
        rw [List.filter_cons]
        simp [hev2]
        rw [runFrom_cons, runFrom_cons]
        exact ih (step m ev) (staleFor_step m ev i h)

end Staleness

section LoadedMonotone

/-- Relation stating that `loaded` can only go up between two states. -/
def loadedLe (s t : LoadingState D E) : Prop :=
  s.loaded = true → t.loaded = true

/-- No patch of the pipeline carries `loaded: false`, so a shallow merge never
lowers `loaded`. -/
theorem applyUpdate_loadedLe (s : LoadingState D E) (u : StateUpdate D E)
    (hu : u.loaded ≠ some false) : loadedLe s (applyUpdate s u) := by
  intro h
  unfold applyUpdate
  cases hl : u.loaded with
  | none => simpa [hl] using h
  | some b =>
      cases b with
      | false => exact absurd hl hu
      | true => simp [hl]

/-- Invariant: the emitted state stream is `loaded`-monotone, and any emitted
state with `loaded = true` forces the current accumulator to have it too. -/
def loadedInv (m : Machine D E) : Prop :=
  List.Pairwise loadedLe m.emitted ∧
  ∀ s ∈ m.emitted, s.loaded = true → m.state.loaded = true

theorem loadedInv_init : loadedInv (initMachine : Machine D E) := by
  constructor
  · simp [initMachine]
  · intro s hs hl
    simp [initMachine] at hs
    rw [hs] at hl
    simp [initialLoadingState] at hl

theorem loadedInv_mergeUpdate (m : Machine D E) (u : StateUpdate D E)
    (hu : u.loaded ≠ some false) (h : loadedInv m) :
    loadedInv (mergeUpdate m u) := by
  obtain ⟨hp, hs⟩ := h
  have hmono : loadedLe m.state (applyUpdate m.state u) :=
    applyUpdate_loadedLe m.state u hu
  constructor
  · rw [mergeUpdate_emitted, List.pairwise_append]
    refine ⟨hp, List.pairwise_singleton _ _, ?_⟩
    intro a ha b hb
    simp at hb
    rw [hb]
    intro hla
    exact hmono (hs a ha hla)
  · intro s hsmem hl
    rw [mergeUpdate_state]
    rw [mergeUpdate_emitted] at hsmem
    rcases List.mem_append.1 hsmem with h1 | h1
    · exact hmono (hs s h1 hl)
    · simp at h1
      rw [h1] at hl
      exact hl

theorem loadedInv_applyStop (m : Machine D E) (h : loadedInv m) :
    loadedInv (applyStop m) := by
  unfold loadedInv at h ⊢
  rw [applyStop_state, applyStop_emitted]
  exact h

theorem loadedInv_step (m : Machine D E) (ev : Event D E) (h : loadedInv m) :
    loadedInv (step m ev) := by
  cases ev with
  | callCancel =>
      rw [step_callCancel]
      exact loadedInv_applyStop m h
  | callLoad =>
      rw [step_callLoad]
      have h1 := loadedInv_mergeUpdate (applyStop m) loadingUpdate
        (by simp [loadingUpdate]) (loadedInv_applyStop m h)
      unfold loadedInv at h1 ⊢
      exact h1
  | callSetData x =>
      rw [step_callSetData]
      exact loadedInv_applyStop _
        (loadedInv_mergeUpdate m (setDataUpdate x) (by simp [setDataUpdate]) h)
  | callSetError e =>
      rw [step_callSetError]
      exact loadedInv_applyStop _
        (loadedInv_mergeUpdate m (setErrorUpdate e) (by simp [setErrorUpdate]) h)
  | debounceElapse =>
      cases hd : m.debouncing with
      | false => rw [step_debounceElapse_idle m hd]; exact h
      | true =>
          cases hf : m.inFlight with
          | none =>
              rw [step_debounceElapse_none m hd hf]
              unfold loadedInv at h ⊢
              exact h
          | some j =>
              rw [step_debounceElapse_live m j hd hf]
              unfold loadedInv at h ⊢
              exact h
  | execNext i v =>
      by_cases hf : m.inFlight = some i
      · rw [step_execNext_live m i v hf]
        have h1 : loadedInv { m with notifs := m.notifs ++ [Notif.loadSuccess i v] } := by
          unfold loadedInv at h ⊢
          exact h
        exact loadedInv_mergeUpdate _ (loadedUpdate v) (by simp [loadedUpdate]) h1
      · rw [step_execNext_stale m i v hf]; exact h
  | execError i e =>
      by_cases hf : m.inFlight = some i
      · rw [step_execError_live m i e hf]
        have h1 : loadedInv { m with notifs := m.notifs ++ [Notif.loadError i e] } := by
          unfold loadedInv at h ⊢
          exact h
        have h2 := loadedInv_mergeUpdate _ (errorUpdate e)
          (by simp [errorUpdate]) h1
        unfold loadedInv at h2 ⊢
        exact h2
      · rw [step_execError_stale m i e hf]; exact h
  | execComplete i =>
      by_cases hf : m.inFlight = some i
      · rw [step_execComplete_live m i hf]
        unfold loadedInv at h ⊢
        exact h
      · rw [step_execComplete_stale m i hf]; exact h

theorem loadedInv_runFrom (m : Machine D E) (tr : List (Event D E))
    (h : loadedInv m) : loadedInv (runFrom m tr) := by
  induction tr generalizing m with
  | nil => exact h
  | cons ev rest ih =>
      rw [runFrom_cons]
      exact ih (step m ev) (loadedInv_step m ev h)

theorem loadedInv_run (tr : List (Event D E)) : loadedInv (run tr) :=
  loadedInv_runFrom _ _ loadedInv_init

end LoadedMonotone

section NotificationOrder

/-- The notification trace of a still-subscribed execution: `loadStart`
followed by one `loadSuccess` per emitted value. -/
def liveShape (i : Nat) (l : List (Notif D E)) : Prop :=
  ∃ vs : List D, l = Notif.loadStart i :: vs.map (Notif.loadSuccess i)

/-- The notification trace of an ended execution: `loadStart`, the successes,
then either just `loadFinish` (completion or cancellation) or
`loadError` immediately followed by `loadFinish` (failure). -/
def doneShape (i : Nat) (l : List (Notif D E)) : Prop :=
  (∃ vs : List D,
    l = Notif.loadStart i :: (vs.map (Notif.loadSuccess i) ++ [Notif.loadFinish i])) ∨
  (∃ vs : List D, ∃ e : E,
    l = Notif.loadStart i ::
      (vs.map (Notif.loadSuccess i) ++ [Notif.loadError i e, Notif.loadFinish i]))

theorem execTrace_append (i : Nat) (l1 l2 : List (Notif D E)) :
    execTrace i (l1 ++ l2) = execTrace i l1 ++ execTrace i l2 := by
  simp [execTrace]

theorem execTrace_start_self (i : Nat) :
    execTrace i [(Notif.loadStart i : Notif D E)] = [Notif.loadStart i] := by
  simp [execTrace, notifOfExec]

theorem execTrace_start_ne (i j : Nat) (h : j ≠ i) :
    execTrace i [(Notif.loadStart j : Notif D E)] = [] := by
  simp [execTrace, notifOfExec, h]

theorem execTrace_success_self (i : Nat) (v : D) :
    execTrace i [(Notif.loadSuccess i v : Notif D E)] = [Notif.loadSuccess i v] := by
  simp [execTrace, notifOfExec]

theorem execTrace_success_ne (i j : Nat) (v : D) (h : j ≠ i) :
    execTrace i [(Notif.loadSuccess j v : Notif D E)] = [] := by
  simp [execTrace, notifOfExec, h]

theorem execTrace_error_self (i : Nat) (e : E) :
    execTrace i [(Notif.loadError i e : Notif D E)] = [Notif.loadError i e] := by
  simp [execTrace, notifOfExec]

theorem execTrace_error_ne (i j : Nat) (e : E) (h : j ≠ i) :
    execTrace i [(Notif.loadError j e : Notif D E)] = [] := by
  simp [execTrace, notifOfExec, h]

theorem execTrace_finish_self (i : Nat) :
    execTrace i [(Notif.loadFinish i : Notif D E)] = [Notif.loadFinish i] := by
  simp [execTrace, notifOfExec]

theorem execTrace_finish_ne (i j : Nat) (h : j ≠ i) :
    execTrace i [(Notif.loadFinish j : Notif D E)] = [] := by
  simp [execTrace, notifOfExec, h]

theorem liveShape_start (i : Nat) :
    liveShape i [(Notif.loadStart i : Notif D E)] :=
  ⟨[], by simp⟩

theorem liveShape_append_success (i : Nat) (l : List (Notif D E)) (v : D)
    (h : liveShape i l) : liveShape i (l ++ [Notif.loadSuccess i v]) := by
  obtain ⟨vs, rfl⟩ := h
  exact ⟨vs ++ [v], by simp⟩

theorem liveShape_append_finish (i : Nat) (l : List (Notif D E))
    (h : liveShape i l) : doneShape i (l ++ [Notif.loadFinish i]) := by
  obtain ⟨vs, rfl⟩ := h
  exact Or.inl ⟨vs, by simp⟩

theorem liveShape_append_error_finish (i : Nat) (l : List (Notif D E)) (e : E)
    (h : liveShape i l) :
    doneShape i (l ++ [Notif.loadError i e, Notif.loadFinish i]) := by
  obtain ⟨vs, rfl⟩ := h
  exact Or.inr ⟨vs, e, by simp⟩

theorem countFinish_map_success (i : Nat) (vs : List D) :
    countFinish i ((vs.map (Notif.loadSuccess i) : List (Notif D E))) = 0 := by
  rw [countFinish, List.countP_eq_zero]
  intro n hn
  rcases List.mem_map.1 hn with ⟨v, -, rfl⟩
  simp [isFinishOf]

/-- A live execution has not yet fired `loadFinish`. -/
theorem liveShape_countFinish (i : Nat) (l : List (Notif D E))
    (h : liveShape i l) : countFinish i l = 0 := by
  obtain ⟨vs, rfl⟩ := h
  have hmap := @countFinish_map_success D E i vs
  rw [countFinish, List.countP_cons_of_neg, ← countFinish]
  · exact hmap
  · simp [isFinishOf]

/-- An ended execution has fired `loadFinish` exactly once, as its last
notification. -/
theorem doneShape_countFinish (i : Nat) (l : List (Notif D E))
    (h : doneShape i l) : countFinish i l = 1 := by
  have hmap := @countFinish_map_success D E i
  rcases h with ⟨vs, rfl⟩ | ⟨vs, e, rfl⟩
  · rw [countFinish, List.countP_cons_of_neg, List.countP_append, ← countFinish,
      ← countFinish, hmap]
    · simp [countFinish, isFinishOf, List.countP_cons]
    · simp [isFinishOf]
  · rw [countFinish, List.countP_cons_of_neg, List.countP_append, ← countFinish,
      ← countFinish, hmap]
    · simp [countFinish, isFinishOf, List.countP_cons]
    · simp [isFinishOf]

/-- The per-execution notification discipline, tied to the machine status:
ids not yet drawn have an empty trace, the live execution has a `liveShape`
trace, and every other drawn id has a `doneShape` trace. -/
def notifInv (m : Machine D E) : Prop :=
  ∀ i : Nat,
    (m.nextExecId ≤ i → execTrace i m.notifs = []) ∧
    (m.inFlight = some i → liveShape i (execTrace i m.notifs)) ∧
    (i < m.nextExecId → m.inFlight ≠ some i → doneShape i (execTrace i m.notifs))

theorem notifInv_congr (m m2 : Machine D E) (h1 : m2.notifs = m.notifs)
    (h2 : m2.inFlight = m.inFlight) (h3 : m2.nextExecId = m.nextExecId)
    (h : notifInv m) : notifInv m2 := by
  unfold notifInv
  rw [h1, h2, h3]
  exact h

theorem notifInv_init : notifInv (initMachine : Machine D E) := by
  intro i
  refine ⟨fun _ => rfl, ?_, ?_⟩
  · intro hf
    simp [initMachine] at hf
  · intro hi
    simp [initMachine] at hi

theorem notifInv_applyStop (m : Machine D E) (hl : liveLt m)
    (h : notifInv m) : notifInv (applyStop m) := by
  cases hf : m.inFlight with
  | none =>
      refine notifInv_congr m _ ?_ ?_ ?_ h
      · exact applyStop_notifs_none m hf
      · rw [applyStop_inFlight, hf]
      · exact applyStop_nextExecId m
  | some j =>
      have hj : j < m.nextExecId := hl j hf
      intro i
      rw [applyStop_notifs_some m j hf, applyStop_inFlight,
        applyStop_nextExecId, execTrace_append]
      obtain ⟨h1, h2, h3⟩ := h i
      refine ⟨?_, ?_, ?_⟩
      · intro hle
        have hji : j ≠ i := by omega
        rw [h1 hle, execTrace_finish_ne i j hji]
        rfl
      · intro hcon
        exact absurd hcon (by simp)
      · intro hlt _
        by_cases hij : i = j
        · subst hij
          rw [execTrace_finish_self]
          exact liveShape_append_finish i _ (h2 hf)
        · have hji : j ≠ i := fun hc => hij hc.symm
          rw [execTrace_finish_ne i j hji, List.append_nil]
          refine h3 hlt ?_
          rw [hf]
          simp
          exact fun hc => hij hc.symm

theorem notifInv_step (m : Machine D E) (ev : Event D E) (hl : liveLt m)
    (h : notifInv m) : notifInv (step m ev) := by
  cases ev with
  | callCancel =>
      rw [step_callCancel]
      exact notifInv_applyStop m hl h
  | callLoad =>
      rw [step_callLoad]
      exact notifInv_congr (applyStop m) _ rfl rfl rfl
        (notifInv_applyStop m hl h)
  | callSetData x =>
      rw [step_callSetData]
      have hm : notifInv (mergeUpdate m (setDataUpdate x)) :=
        notifInv_congr m _ rfl rfl rfl h
      have hlm : liveLt (mergeUpdate m (setDataUpdate x)) := by
        intro i hi
        simp at hi
        exact hl i hi
      exact notifInv_applyStop _ hlm hm
  | callSetError e =>
      rw [step_callSetError]
      have hm : notifInv (mergeUpdate m (setErrorUpdate e)) :=
        notifInv_congr m _ rfl rfl rfl h
      have hlm : liveLt (mergeUpdate m (setErrorUpdate e)) := by
        intro i hi
        simp at hi
        exact hl i hi
      exact notifInv_applyStop _ hlm hm
  | debounceElapse =>
      cases hd : m.debouncing with
      | false => rw [step_debounceElapse_idle m hd]; exact h
      | true =>
          cases hf : m.inFlight with
          | none =>
              rw [step_debounceElapse_none m hd hf]
              intro i
              obtain ⟨h1, h2, h3⟩ := h i
              simp only [execTrace_append]
              refine ⟨?_, ?_, ?_⟩
              · intro hle
                have hle2 : m.nextExecId + 1 ≤ i := hle
                have hni : m.nextExecId ≠ i := by omega
                rw [h1 (by omega), execTrace_start_ne i m.nextExecId hni]
                rfl
              · intro hfi
                have hfi2 : m.nextExecId = i := Option.some.inj hfi
                subst hfi2
                rw [h1 (Nat.le_refl _), execTrace_start_self]
                simp
                exact liveShape_start _
              · intro hlt hne
                have hlt2 : i < m.nextExecId + 1 := hlt
                have hni : m.nextExecId ≠ i := fun hc => hne (by rw [hc])
                have hlt3 : i < m.nextExecId := by omega
                rw [execTrace_start_ne i m.nextExecId hni, List.append_nil]
                exact h3 hlt3 (by rw [hf]; simp)
          | some j =>
              have hj : j < m.nextExecId := hl j hf
              rw [step_debounceElapse_live m j hd hf]
              intro i
              obtain ⟨h1, h2, h3⟩ := h i
              have hsplit :
                  (m.notifs ++ [Notif.loadStart m.nextExecId, Notif.loadFinish j]) =
                  (m.notifs ++ [Notif.loadStart m.nextExecId]) ++ [Notif.loadFinish j] := by
                simp
              simp only [hsplit, execTrace_append]
              refine ⟨?_, ?_, ?_⟩
              · intro hle
                have hle2 : m.nextExecId + 1 ≤ i := hle
                have hni : m.nextExecId ≠ i := by omega
                have hji : j ≠ i := by omega
                rw [h1 (by omega), execTrace_start_ne i m.nextExecId hni,
                  execTrace_finish_ne i j hji]
                rfl
              · intro hfi
                have hfi2 : m.nextExecId = i := Option.some.inj hfi
                subst hfi2
                have hji : j ≠ m.nextExecId := by omega
                rw [h1 (Nat.le_refl _), execTrace_start_self,
                  execTrace_finish_ne _ j hji]
                simp
                exact liveShape_start _
              · intro hlt hne
                have hlt2 : i < m.nextExecId + 1 := hlt
                have hni : m.nextExecId ≠ i := fun hc => hne (by rw [hc])
                have hlt3 : i < m.nextExecId := by omega
                rw [execTrace_start_ne i m.nextExecId hni]
                by_cases hij : i = j
                · subst hij
                  rw [execTrace_finish_self]
                  simp
                  exact liveShape_append_finish i _ (h2 hf)
                · have hji : j ≠ i := fun hc => hij hc.symm
                  rw [execTrace_finish_ne i j hji]
                  simp
                  refine h3 hlt3 ?_
                  rw [hf]
                  simp
                  exact fun hc => hij hc.symm
  | execNext i v =>
      by_cases hf : m.inFlight = some i
      · have hi : i < m.nextExecId := hl i hf
        rw [step_execNext_live m i v hf]
        intro k
        obtain ⟨h1, h2, h3⟩ := h k
        simp only [mergeUpdate_notifs, mergeUpdate_inFlight,
          mergeUpdate_nextExecId, execTrace_append]
        refine ⟨?_, ?_, ?_⟩
        · intro hle
          have hik : i ≠ k := by omega
          rw [h1 hle, execTrace_success_ne k i v hik]
          rfl
        · intro hfk
          rw [hf] at hfk
          have hik : i = k := Option.some.inj hfk
          subst hik
          rw [execTrace_success_self]
          exact liveShape_append_success _ _ v (h2 hf)
        · intro hlt hne
          have hik : i ≠ k := by
            intro hc
            subst hc
            exact hne hf
          rw [execTrace_success_ne k i v hik, List.append_nil]
          exact h3 hlt hne
      · rw [step_execNext_stale m i v hf]; exact h
  | execError i e =>
      by_cases hf : m.inFlight = some i
      · have hi : i < m.nextExecId := hl i hf
        rw [step_execError_live m i e hf]
        intro k
        obtain ⟨h1, h2, h3⟩ := h k
        have hsplit :
            (m.notifs ++ [Notif.loadError i e, Notif.loadFinish i]) =
            (m.notifs ++ [Notif.loadError i e]) ++ [Notif.loadFinish i] := by
          simp
        simp only [hsplit, mergeUpdate_nextExecId, mergeUpdate_inFlight,
          mergeUpdate_state, execTrace_append]
        refine ⟨?_, ?_, ?_⟩
        · intro hle
          have hik : i ≠ k := by omega
          rw [h1 hle, execTrace_error_ne k i e hik,
            execTrace_finish_ne k i hik]
          rfl
        · intro hcon
          exact absurd hcon (by simp)
        · intro hlt _
          by_cases hki : k = i
          · subst hki
            rw [execTrace_error_self, execTrace_finish_self]
            have hdone := liveShape_append_error_finish k _ e (h2 hf)
            simpa using hdone
          · have hik : i ≠ k := fun hc => hki hc.symm
            rw [execTrace_error_ne k i e hik, execTrace_finish_ne k i hik]
            simp
            refine h3 hlt ?_
            rw [hf]
            simp
            exact fun hc => hki hc.symm
      · rw [step_execError_stale m i e hf]; exact h
  | execComplete i =>
      by_cases hf : m.inFlight = some i
      · rw [step_execComplete_live m i hf]
        refine notifInv_congr (applyStop m) _ ?_ ?_ ?_
          (notifInv_applyStop m hl h)
        · rw [applyStop_notifs_some m i hf]
        · rw [applyStop_inFlight]
        · rw [applyStop_nextExecId]
      · rw [step_execComplete_stale m i hf]; exact h

theorem notifInv_runFrom (m : Machine D E) (tr : List (Event D E))
    (hl : liveLt m) (h : notifInv m) : notifInv (runFrom m tr) := by
  induction tr generalizing m with
  | nil => exact h
  | cons ev rest ih =>
      rw [runFrom_cons]
      exact ih (step m ev) (liveLt_step m ev hl) (notifInv_step m ev hl h)

theorem notifInv_run (tr : List (Event D E)) : notifInv (run tr) :=
  notifInv_runFrom _ _ liveLt_init notifInv_init

end NotificationOrder

section LoadCall

theorem step_callLoad_state (m : Machine D E) :
    (step m .callLoad).state = applyUpdate m.state loadingUpdate := by
  rw [step_callLoad]
  simp

theorem step_callLoad_emitted (m : Machine D E) :
    (step m .callLoad).emitted = m.emitted ++ [applyUpdate m.state loadingUpdate] := by
  rw [step_callLoad]
  simp

theorem step_callLoad_inFlight (m : Machine D E) :
    (step m .callLoad).inFlight = none := by
  rw [step_callLoad]
  simp

theorem step_callLoad_debouncing (m : Machine D E) :
    (step m .callLoad).debouncing = true := by
  rw [step_callLoad]

theorem step_callLoad_nextExecId (m : Machine D E) :
    (step m .callLoad).nextExecId = m.nextExecId := by
  rw [step_callLoad]
  simp

theorem countStart_append (l1 l2 : List (Notif D E)) :
    countStart (l1 ++ l2) = countStart l1 + countStart l2 :=
  List.countP_append _ l1 l2

theorem countStart_finish (j : Nat) :
    countStart [(Notif.loadFinish j : Notif D E)] = 0 := rfl

theorem countStart_start (j : Nat) :
    countStart [(Notif.loadStart j : Notif D E)] = 1 := rfl

theorem step_callLoad_notifs (m : Machine D E) :
    (step m .callLoad).notifs = (applyStop m).notifs := by
  rw [step_callLoad]
  simp

theorem step_callLoad_countStart (m : Machine D E) :
    countStart (step m .callLoad).notifs = countStart m.notifs := by
  rw [step_callLoad_notifs]
  cases hf : m.inFlight with
  | none => rw [applyStop_notifs_none m hf]
  | some j =>
      rw [applyStop_notifs_some m j hf, countStart_append, countStart_finish]
      omega

/-- Any burst of `load()` calls leaves the machine waiting out a debounce
window with no live execution, without having invoked the load function and
without consuming an execution id. -/
theorem runFrom_replicate_callLoad (m : Machine D E) (n : Nat) (h : 1 ≤ n) :
    (runFrom m (List.replicate n Event.callLoad)).inFlight = none ∧
    (runFrom m (List.replicate n Event.callLoad)).debouncing = true ∧
    (runFrom m (List.replicate n Event.callLoad)).nextExecId = m.nextExecId ∧
    countStart (runFrom m (List.replicate n Event.callLoad)).notifs =
      countStart m.notifs := by
  induction n generalizing m with
  | zero => omega
  | succ k ih =>
      rw [List.replicate_succ, runFrom_cons]
      by_cases hk : 1 ≤ k
      · obtain ⟨a, b, c, d⟩ := ih (step m .callLoad) hk
        refine ⟨a, b, ?_, ?_⟩
        · rw [c, step_callLoad_nextExecId]
        · rw [d, step_callLoad_countStart]
      · have hk0 : k = 0 := by omega
        subst hk0
        rw [List.replicate_zero, runFrom_nil]
        exact ⟨step_callLoad_inFlight m, step_callLoad_debouncing m,
          step_callLoad_nextExecId m, step_callLoad_countStart m⟩

end LoadCall

/-- Claim C4: for every `LoadingState` `s`, the rendering phase is the pure
function of the state: ERROR iff `s.error` is truthy; otherwise LOADED iff
`s.loaded` holds and (`s.loading` is false or `staleData` is set); otherwise
LOADING. -/
theorem C4_phase_pure (staleData : Bool) (s : LoadingState D E) :
    (getLoadingPhase staleData s = LoadingPhase.error ↔ s.error.isSome = true) ∧
    (getLoadingPhase staleData s = LoadingPhase.loaded ↔
      (s.error = none ∧ s.loaded = true ∧ (s.loading = false ∨ staleData = true))) ∧
    (getLoadingPhase staleData s = LoadingPhase.loading ↔
      (s.error = none ∧ (s.loaded = false ∨ (s.loading = true ∧ staleData = false)))) := by
  obtain ⟨ld, lded, er, da⟩ := s
  cases er <;> cases ld <;> cases lded <;> cases staleData <;>
    simp [getLoadingPhase]

/-- Counterexample for claim C3: the claim says `setError(e)` yields a state with
`loading = false`.  On the code it does not: the override patch is `{ error }`
only, so after `load()` (which set `loading = true`) a `setError(7)` leaves
`loading = true` while setting `error = 7`. -/
theorem C3_counterexample :
    (run ([Event.callLoad, Event.callSetError 7] :
      List (Event Nat Nat))).state.error = some 7 ∧
    (run ([Event.callLoad, Event.callSetError 7] :
      List (Event Nat Nat))).state.loading = true := by
  decide

/-- Claim C3 (amended): `setError(e)` immediately merges the patch `{error: e}`:
`error` becomes `e` (so the phase is ERROR, since `error` is checked first),
while `loading`, `loaded` and `data` are left unchanged; the override acts as
a cancel signal, aborting any in-flight execution (its `loadFinish` fires and
no outcome of any execution is delivered afterwards, the in-flight slot being
empty). -/
theorem C3_setError_patch (m : Machine D E) (e : E) (staleData : Bool) :
    (step m (Event.callSetError e)).state.error = some e ∧
    (step m (Event.callSetError e)).state.loading = m.state.loading ∧
    (step m (Event.callSetError e)).state.loaded = m.state.loaded ∧
    (step m (Event.callSetError e)).state.data = m.state.data ∧
    getLoadingPhase staleData (step m (Event.callSetError e)).state =
      LoadingPhase.error ∧
    (step m (Event.callSetError e)).emitted =
      m.emitted ++ [(step m (Event.callSetError e)).state] ∧
    (step m (Event.callSetError e)).inFlight = none ∧
    (step m (Event.callSetError e)).notifs =
      m.notifs ++
        (match m.inFlight with
         | some i => [Notif.loadFinish i]
         | none => []) ∧
    (∀ i v, step (step m (Event.callSetError e)) (Event.execNext i v) =
      step m (Event.callSetError e)) ∧
    (∀ i f, step (step m (Event.callSetError e)) (Event.execError i f) =
      step m (Event.callSetError e)) ∧
    (∀ i, step (step m (Event.callSetError e)) (Event.execComplete i) =
      step m (Event.callSetError e)) := by
  have hstate : (step m (Event.callSetError e)).state =
      applyUpdate m.state (setErrorUpdate e) := by
    rw [step_callSetError, applyStop_state, mergeUpdate_state]
  have hfl : (step m (Event.callSetError e)).inFlight = none := by
    rw [step_callSetError, applyStop_inFlight]
  refine ⟨?_, ?_, ?_, ?_, ?_, ?_, hfl, ?_, ?_, ?_, ?_⟩
  · rw [hstate]; simp [applyUpdate, setErrorUpdate]
  · rw [hstate]; simp [applyUpdate, setErrorUpdate]
  · rw [hstate]; simp [applyUpdate, setErrorUpdate]
  · rw [hstate]; simp [applyUpdate, setErrorUpdate]
  · rw [hstate]; simp [getLoadingPhase, applyUpdate, setErrorUpdate]
  · rw [hstate, step_callSetError, applyStop_emitted, mergeUpdate_emitted]
  · rw [step_callSetError]
    cases hf : m.inFlight with
    | none =>
        rw [applyStop_notifs_none _ (by rw [mergeUpdate_inFlight]; exact hf)]
        simp
    | some i =>
        rw [applyStop_notifs_some _ i (by rw [mergeUpdate_inFlight]; exact hf)]
        simp
  · intro i v
    exact step_execNext_stale _ i v (by rw [hfl]; simp)
  · intro i f
    exact step_execError_stale _ i f (by rw [hfl]; simp)
  · intro i
    exact step_execComplete_stale _ i (by rw [hfl]; simp)

/-- Claim C5: calling `setData(x)` while execution `i` is in-flight immediately
yields the LOADED state `{loading: false, loaded: true, data: x, error: null}`
(bypassing debounce and load-function invocation: no `loadStart` fires, only
the aborted execution's `loadFinish`), and the in-flight execution produces no
further state updates even if it later resolves: removing its outcome events
from any continuation leaves the entire run unchanged. -/
theorem C5_setData_override (tr : List (Event D E)) (x : D) (staleData : Bool)
    (i : Nat) (rest : List (Event D E)) (h : (run tr).inFlight = some i) :
    (step (run tr) (Event.callSetData x)).state =
      { loading := false, loaded := true, error := none, data := some x } ∧
    getLoadingPhase staleData (step (run tr) (Event.callSetData x)).state =
      LoadingPhase.loaded ∧
    (step (run tr) (Event.callSetData x)).emitted =
      (run tr).emitted ++
        [{ loading := false, loaded := true, error := none, data := some x }] ∧
    (step (run tr) (Event.callSetData x)).notifs =
      (run tr).notifs ++ [Notif.loadFinish i] ∧
    (step (run tr) (Event.callSetData x)).inFlight = none ∧
    runFrom (step (run tr) (Event.callSetData x))
        (rest.filter fun ev => !(eventOfExec i ev)) =
      runFrom (step (run tr) (Event.callSetData x)) rest := by
  have hstate : (step (run tr) (Event.callSetData x)).state =
      { loading := false, loaded := true, error := none, data := some x } := by
    rw [step_callSetData, applyStop_state, mergeUpdate_state]
    simp [applyUpdate, setDataUpdate]
  have hstale : staleFor (step (run tr) (Event.callSetData x)) i := by
    constructor
    · rw [step_callSetData, applyStop_nextExecId, mergeUpdate_nextExecId]
      exact liveLt_run tr i h
    · rw [step_callSetData, applyStop_inFlight]
      simp
  refine ⟨hstate, ?_, ?_, ?_, ?_, ?_⟩
  · rw [hstate]; simp [getLoadingPhase]
  · rw [step_callSetData, applyStop_emitted, mergeUpdate_emitted]
    have hs2 : applyUpdate (run tr).state (setDataUpdate x) =
        { loading := false, loaded := true, error := none, data := some x } := by
      simp [applyUpdate, setDataUpdate]
    rw [hs2]
  · rw [step_callSetData,
      applyStop_notifs_some _ i (by rw [mergeUpdate_inFlight]; exact h)]
    simp
  · rw [step_callSetData, applyStop_inFlight]
  · exact staleFor_filter_runFrom _ rest i hstale

/-- Witness for claim C5. -/
theorem C5_setData_override_witness :
    (step (run ([Event.callLoad, Event.debounceElapse] : List (Event Nat Nat)))
      (Event.callSetData 5)).state =
      { loading := false, loaded := true, error := none, data := some 5 } :=
  (C5_setData_override [Event.callLoad, Event.debounceElapse] 5 false 0
    [Event.execNext 0 9] (by decide)).1

/-- Claim C6: calling `load()` from a state whose `error` field is non-null
produces, as the very next merged state update (exactly one state is appended
to the stream, immediately, while the debounce wait is still pending and
before any load-function invocation), a state with `error = null` and
`loading = true`. -/
theorem C6_retry_clears_error (tr : List (Event D E))
    (h : (run tr).state.error ≠ none) :
    (step (run tr) Event.callLoad).emitted =
      (run tr).emitted ++ [(step (run tr) Event.callLoad).state] ∧
    (step (run tr) Event.callLoad).state.error = none ∧
    (step (run tr) Event.callLoad).state.loading = true ∧
    (step (run tr) Event.callLoad).debouncing = true ∧
    countStart (step (run tr) Event.callLoad).notifs =
      countStart (run tr).notifs := by
  refine ⟨?_, ?_, ?_, step_callLoad_debouncing _, step_callLoad_countStart _⟩
  · rw [step_callLoad_emitted, step_callLoad_state]
  · rw [step_callLoad_state]; simp [applyUpdate, loadingUpdate]
  · rw [step_callLoad_state]; simp [applyUpdate, loadingUpdate]

/-- Witness for claim C6. -/
theorem C6_retry_clears_error_witness :
    (step (run ([Event.callLoad, Event.debounceElapse, Event.execError 0 3] :
      List (Event Nat Nat))) Event.callLoad).state.error = none :=
  (C6_retry_clears_error
    [Event.callLoad, Event.debounceElapse, Event.execError 0 3]
    (by decide)).2.1

/-- Claim C7: starting a new load attempt leaves `data` (and `loaded`)
untouched: the pre-result patch `{loading: true, error: null}` carries no
`data` key, and every state update is a shallow merge of a partial patch onto
the previous state, so any field absent from a patch persists. -/
theorem C7_data_retained (tr : List (Event D E)) (s : LoadingState D E)
    (u : StateUpdate D E) (hdata : u.data = none) (hloaded : u.loaded = none) :
    (step (run tr) Event.callLoad).state.data = (run tr).state.data ∧
    (step (run tr) Event.callLoad).state.loaded = (run tr).state.loaded ∧
    (applyUpdate s u).data = s.data ∧
    (applyUpdate s u).loaded = s.loaded ∧
    (loadingUpdate : StateUpdate D E).data = none ∧
    (loadingUpdate : StateUpdate D E).loaded = none := by
  refine ⟨?_, ?_, ?_, ?_, rfl, rfl⟩
  · rw [step_callLoad_state]; simp [applyUpdate, loadingUpdate]
  · rw [step_callLoad_state]; simp [applyUpdate, loadingUpdate]
  · simp [applyUpdate, hdata]
  · simp [applyUpdate, hloaded]

/-- Witness for claim C7. -/
theorem C7_data_retained_witness :
    (step (run ([Event.callLoad, Event.debounceElapse, Event.execNext 0 5] :
      List (Event Nat Nat))) Event.callLoad).state.data =
      (run ([Event.callLoad, Event.debounceElapse, Event.execNext 0 5] :
        List (Event Nat Nat))).state.data :=
  (C7_data_retained [Event.callLoad, Event.debounceElapse, Event.execNext 0 5]
    initialLoadingState loadingUpdate (by decide) (by decide)).1

/-- Claim C8: an error `e` raised by the live execution `i` is caught and
converted into the patch `{loading: false, error: e}` carrying `e` verbatim
(all other fields untouched), with notifications `loadError e` then
`loadFinish`; the machine keeps running (the step function is total and the
error is consumed as a state update, never re-thrown) and stays recoverable:
a subsequent `load()` clears the error and re-arms the pipeline. -/
theorem C8_error_caught (tr : List (Event D E)) (i : Nat) (e : E)
    (h : (run tr).inFlight = some i) :
    (step (run tr) (Event.execError i e)).state.error = some e ∧
    (step (run tr) (Event.execError i e)).state.loading = false ∧
    (step (run tr) (Event.execError i e)).state.loaded = (run tr).state.loaded ∧
    (step (run tr) (Event.execError i e)).state.data = (run tr).state.data ∧
    (step (run tr) (Event.execError i e)).emitted =
      (run tr).emitted ++ [(step (run tr) (Event.execError i e)).state] ∧
    (step (run tr) (Event.execError i e)).notifs =
      (run tr).notifs ++ [Notif.loadError i e, Notif.loadFinish i] ∧
    (step (run tr) (Event.execError i e)).inFlight = none ∧
    (step (step (run tr) (Event.execError i e)) Event.callLoad).state.error =
      none ∧
    (step (step (run tr) (Event.execError i e)) Event.callLoad).debouncing =
      true := by
  have hstep := step_execError_live (run tr) i e h
  have hstate : (step (run tr) (Event.execError i e)).state =
      applyUpdate (run tr).state (errorUpdate e) := by
    rw [hstep]
    simp
  refine ⟨?_, ?_, ?_, ?_, ?_, ?_, ?_, ?_, step_callLoad_debouncing _⟩
  · rw [hstate]; simp [applyUpdate, errorUpdate]
  · rw [hstate]; simp [applyUpdate, errorUpdate]
  · rw [hstate]; simp [applyUpdate, errorUpdate]
  · rw [hstate]; simp [applyUpdate, errorUpdate]
  · rw [hstate, hstep]
    simp
  · rw [hstep]
  · rw [hstep]
  · rw [step_callLoad_state]; simp [applyUpdate, loadingUpdate]

/-- Witness for claim C8. -/
theorem C8_error_caught_witness :
    (step (run ([Event.callLoad, Event.debounceElapse] : List (Event Nat Nat)))
      (Event.execError 0 3)).state.error = some 3 :=
  (C8_error_caught [Event.callLoad, Event.debounceElapse] 0 3 (by decide)).1

/-- Claim C1: calling `load()` while execution `i` is in-flight unsubscribes it
(`loadFinish i` fires, the in-flight slot empties — the single `Option`-typed
slot is how the model states that at most one execution is ever live), `i` is
never the live execution again no matter what follows, and no state update or
notification of the stale execution is ever delivered: deleting its outcome
events from any continuation leaves the entire run unchanged. -/
theorem C1_supersession (tr rest : List (Event D E)) (i : Nat)
    (h : (run tr).inFlight = some i) :
    (step (run tr) Event.callLoad).inFlight = none ∧
    (step (run tr) Event.callLoad).notifs =
      (run tr).notifs ++ [Notif.loadFinish i] ∧
    (runFrom (step (run tr) Event.callLoad) rest).inFlight ≠ some i ∧
    runFrom (step (run tr) Event.callLoad)
        (rest.filter fun ev => !(eventOfExec i ev)) =
      runFrom (step (run tr) Event.callLoad) rest := by
  have hstale : staleFor (step (run tr) Event.callLoad) i := by
    constructor
    · rw [step_callLoad_nextExecId]
      exact liveLt_run tr i h
    · rw [step_callLoad_inFlight]
      simp
  refine ⟨step_callLoad_inFlight _, ?_, ?_, ?_⟩
  · rw [step_callLoad_notifs, applyStop_notifs_some _ i h]
  · exact (staleFor_runFrom _ rest i hstale).2
  · exact staleFor_filter_runFrom _ rest i hstale

/-- Witness for claim C1. -/
theorem C1_supersession_witness :
    runFrom (step (run ([Event.callLoad, Event.debounceElapse] :
        List (Event Nat Nat))) Event.callLoad)
        ([Event.execNext 0 9].filter fun ev => !(eventOfExec 0 ev)) =
      runFrom (step (run ([Event.callLoad, Event.debounceElapse] :
        List (Event Nat Nat))) Event.callLoad) [Event.execNext 0 9] :=
  (C1_supersession [Event.callLoad, Event.debounceElapse] [Event.execNext 0 9]
    0 (by decide)).2.2.2

/-- Claim C2: any burst of `n ≥ 1` `load()` calls closer together than the
debounce window (i.e. with no timer elapse in between) invokes the load
function exactly once, at the elapse of the window following the last call:
during the burst no execution starts (each call cancels any prior in-flight
execution and pending wait, leaving the machine debouncing), the single
elapse fires exactly one `loadStart` (with the one fresh id), and nothing is
queued: a further elapse is a no-op. -/
theorem C2_debounce_collapse (tr : List (Event D E)) (n : Nat) (h : 1 ≤ n) :
    (runFrom (run tr) (List.replicate n Event.callLoad)).inFlight = none ∧
    (runFrom (run tr) (List.replicate n Event.callLoad)).debouncing = true ∧
    countStart (runFrom (run tr) (List.replicate n Event.callLoad)).notifs =
      countStart (run tr).notifs ∧
    countStart (step (runFrom (run tr) (List.replicate n Event.callLoad))
        Event.debounceElapse).notifs = countStart (run tr).notifs + 1 ∧
    (step (runFrom (run tr) (List.replicate n Event.callLoad))
        Event.debounceElapse).inFlight = some (run tr).nextExecId ∧
    (step (runFrom (run tr) (List.replicate n Event.callLoad))
        Event.debounceElapse).debouncing = false ∧
    step (step (runFrom (run tr) (List.replicate n Event.callLoad))
        Event.debounceElapse) Event.debounceElapse =
      step (runFrom (run tr) (List.replicate n Event.callLoad))
        Event.debounceElapse := by
  obtain ⟨ha, hb, hc, hd⟩ := runFrom_replicate_callLoad (run tr) n h
  have helapse := step_debounceElapse_none _ hb ha
  have hdb : (step (runFrom (run tr) (List.replicate n Event.callLoad))
      Event.debounceElapse).debouncing = false := by
    rw [helapse]
  refine ⟨ha, hb, hd, ?_, ?_, hdb, step_debounceElapse_idle _ hdb⟩
  · rw [helapse]
    simp [countStart_append, countStart_start]
    omega
  · rw [helapse]
    simp [hc]

/-- Witness for claim C2. -/
theorem C2_debounce_collapse_witness :
    countStart (step (runFrom (run ([] : List (Event Nat Nat)))
        (List.replicate 3 Event.callLoad)) Event.debounceElapse).notifs =
      countStart (run ([] : List (Event Nat Nat))).notifs + 1 :=
  (C2_debounce_collapse [] 3 (by decide)).2.2.2.1

/-- Claim C10: the field `loaded` is monotone along the emitted state stream: once an
emitted state has `loaded = true`, every later emitted state does too — and
indeed no patch of the pipeline carries `loaded: false` (the pre-result,
error-result and `setError` patches omit the key; value-result and `setData`
patches set it to `true`). -/
theorem C10_loaded_monotone (tr : List (Event D E)) (j k : Nat) (hjk : j ≤ k)
    (hk : k < (run tr).emitted.length)
    (hj : ((run tr).emitted.get ⟨j, Nat.lt_of_le_of_lt hjk hk⟩).loaded = true) :
    ((run tr).emitted.get ⟨k, hk⟩).loaded = true ∧
    (loadingUpdate : StateUpdate D E).loaded = none ∧
    (∀ e : E, (errorUpdate e : StateUpdate D E).loaded = none) ∧
    (∀ e : E, (setErrorUpdate e : StateUpdate D E).loaded = none) ∧
    (∀ v : D, (loadedUpdate v : StateUpdate D E).loaded = some true) ∧
    (∀ x : D, (setDataUpdate x : StateUpdate D E).loaded = some true) := by
  refine ⟨?_, rfl, fun e => rfl, fun e => rfl, fun v => rfl, fun x => rfl⟩
  obtain ⟨hp, -⟩ := loadedInv_run tr
  rcases Nat.lt_or_ge j k with hlt | hge
  · have hpg := List.pairwise_iff_get.1 hp ⟨j, Nat.lt_of_le_of_lt hjk hk⟩
      ⟨k, hk⟩ (Fin.mk_lt_mk.2 hlt)
    exact hpg hj
  · have hjk2 : j = k := Nat.le_antisymm hjk hge
    subst hjk2
    exact hj

/-- Witness for claim C10. -/
theorem C10_loaded_monotone_witness :
    ((run ([Event.callSetData 5, Event.callLoad] :
      List (Event Nat Nat))).emitted.get ⟨2, by decide⟩).loaded = true :=
  (C10_loaded_monotone [Event.callSetData 5, Event.callLoad] 1 2 (by decide)
    (by decide) (by decide)).1

/-- Claim C9: per execution `i`, the notifications are strictly ordered
`loadStart`, then zero or more `loadSuccess` (one per emitted value), then —
for an ended execution — either just `loadFinish` (completion or
cancellation) or `loadError` immediately followed by `loadFinish` (failure);
a still-live execution has no `loadFinish` yet, and every started execution
that has ended has fired `loadFinish` exactly once, whatever the reason it
ended. -/
theorem C9_notification_order (tr : List (Event D E)) (i : Nat) :
    (execTrace i (run tr).notifs = [] ∨
      liveShape i (execTrace i (run tr).notifs) ∨
      doneShape i (execTrace i (run tr).notifs)) ∧
    ((run tr).inFlight = some i → liveShape i (execTrace i (run tr).notifs)) ∧
    ((run tr).inFlight ≠ some i → execTrace i (run tr).notifs ≠ [] →
      doneShape i (execTrace i (run tr).notifs)) ∧
    (∀ l : List (Notif D E), liveShape i l → countFinish i l = 0) ∧
    (∀ l : List (Notif D E), doneShape i l → countFinish i l = 1) := by
  obtain ⟨h1, h2, h3⟩ := notifInv_run tr i
  refine ⟨?_, h2, ?_, fun l => liveShape_countFinish i l,
    fun l => doneShape_countFinish i l⟩
  · rcases Nat.lt_or_ge i (run tr).nextExecId with hlt | hge
    · by_cases hf : (run tr).inFlight = some i
      · exact Or.inr (Or.inl (h2 hf))
      · exact Or.inr (Or.inr (h3 hlt hf))
    · exact Or.inl (h1 hge)
  · intro hne hns
    rcases Nat.lt_or_ge i (run tr).nextExecId with hlt | hge
    · exact h3 hlt hne
    · exact absurd (h1 hge) hns

/-- Witness for claim C9. -/
theorem C9_notification_order_witness :
    doneShape 0 (execTrace 0
      (run ([Event.callLoad, Event.debounceElapse, Event.execNext 0 5,
        Event.callCancel] : List (Event Nat Nat))).notifs) := by
  have h := C9_notification_order
    ([Event.callLoad, Event.debounceElapse, Event.execNext 0 5,
      Event.callCancel] : List (Event Nat Nat)) 0
  exact h.2.2.1 (by decide) (by decide)

end NgxLoadWith
